import Mathlib

/-!
Verification of the Intcode virtual machine implemented in `intcode.py`.

The machine state (class `Computer`) is embedded as a structure holding the
sparse memory (`defaultdict(int)`), the instruction pointer, the relative
base register and the two I/O buffers.  Each loop iteration of
`Computer.run` is embedded as the pure function `step`; the loop itself is
`runLoop`, driven by an explicit fuel parameter since Intcode programs need
not terminate.  Python exceptions that escape the loop (`KeyError`,
`ValueError`, `RuntimeError`, `TypeError`) become the `VMError` variants of
a terminal `err` result; the `StopIteration` raised by opcode 99 is caught
by the loop in the source and becomes the normal `halted` result.
-/

/-- Sparse integer-addressed memory, `self.memory = defaultdict(int)` in the
source: reading a never-written address (a negative one included) yields 0. -/
def Mem : Type := Int → Int

/-- Reading `memory[a]`. -/
def Mem.read (m : Mem) (a : Int) : Int := m a

/-- Writing `memory[a] = v`. -/
def Mem.write (m : Mem) (a v : Int) : Mem := fun x => if x = a then v else m x

/-- The memory of a freshly constructed `Computer`: everything reads as 0. -/
def Mem.empty : Mem := fun _ => 0

/-- `InStream.add`: `self.buffer.append(inp)` on a FIFO deque. -/
def InStream.add (buffer : List Int) (v : Int) : List Int := buffer ++ [v]

/-- `InStream.get`: `popleft` from the deque, `RuntimeError` (here `none`)
when empty. -/
def InStream.get (buffer : List Int) : Option (Int × List Int) :=
  match buffer with
  | [] => none
  | v :: rest => some (v, rest)

/-- `OutStream.put`: `self.buffer.append(val)`. -/
def OutStream.put (buffer : List Int) (v : Int) : List Int := buffer ++ [v]

/-- `OutStream.get`: `self.buffer.pop()` removes and returns the LAST element
of the list (the most recently produced value); `RuntimeError` (here `none`)
when the buffer is empty. -/
def OutStream.get (buffer : List Int) : Option (Int × List Int) :=
  match buffer.getLast? with
  | some v => some (v, buffer.dropLast)
  | none => none

/-- Persistent state of a `Computer`.  The `running` / `pause_at_output`
attributes and the per-step `last_operation_jump` / `last_operation_output`
flags are not carried here: the flags are cleared at the top of every loop
iteration and are returned by `step` instead, and `running` is encoded by
the `RunResult` constructors. -/
structure Machine where
  memory : Mem
  ptr : Int
  relative_base : Int
  input : List Int
  output : List Int

/-- A freshly constructed `Computer()`. -/
def Machine.init : Machine := ⟨Mem.empty, 0, 0, [], []⟩

/-- `load_code`: `for i, val in enumerate(code): self.memory[i] = val`,
unrolled with an explicit running index. -/
def loadList (m : Mem) (i : Int) : List Int → Mem
  | [] => m
  | v :: rest => loadList (m.write i v) (i + 1) rest

/-- `Computer.load_code(code)`.  It writes memory only: `ptr`,
`relative_base` and the two streams are untouched (resetting them is the
separate `Computer.reset` method). -/
def Machine.load_code (s : Machine) (code : List Int) : Machine :=
  { s with memory := loadList s.memory 0 code }

/-- `Computer.read_input(val)`. -/
def Machine.read_input (s : Machine) (v : Int) : Machine :=
  { s with input := InStream.add s.input v }

/-- `Computer.get_output()`: pops a single value (the most recent) from the
output buffer. -/
def Machine.get_output (s : Machine) : Option (Int × Machine) :=
  match OutStream.get s.output with
  | some (v, rest) => some (v, { s with output := rest })
  | none => none

/-- The Python exceptions that can escape `Computer.run`. -/
inductive VMError where
  /-- `KeyError`: `OP_DICTIONARY[opcode]` misses. -/
  | unknownOpcode
  /-- `ValueError` from `get_modes`: `str(raw).zfill(5)` of a negative word
  puts a `-` among the mode digits and `int` refuses it. -/
  | negativeWord
  /-- `ValueError('Cannot write in immediate mode!')` from `Operator.write`. -/
  | invalidWriteTarget
  /-- `RuntimeError('Cannot read from empty input.')` from `InStream.get`. -/
  | emptyInput
  /-- `get_param` fell through all three modes and returned `None`; the
  caller then faults on the `None`.  (For an Output instruction the source
  would actually append `None` to the sink; that unreachable-in-practice
  case is folded into this error as well.) -/
  | badParamMode
deriving DecidableEq

/-- Result of one iteration of the `while self.running` loop. -/
inductive StepOut where
  /-- Instruction executed; `outFlag` is `last_operation_output`.  The ptr
  advance (when `last_operation_jump` is not set) is already applied. -/
  | next (s : Machine) (outFlag : Bool)
  /-- Opcode 99 raised `StopIteration`: state untouched, loop ends. -/
  | halted (s : Machine)
  /-- A fatal exception escapes `run`; `s` is the state at raise time. -/
  | err (e : VMError) (s : Machine)

/-- Mode digit `i` of an instruction word, as `get_modes` computes it for
`i < 3`: digit `i` (least-significant first) of `word / 100`. -/
def modeAt (wn : Nat) (i : Nat) : Nat := wn / 100 / 10 ^ i % 10

/-- Most significant decimal digit of `n` (fuel-driven helper). -/
def msdAux : Nat → Nat → Nat
  | 0, n => n
  | fuel + 1, n => if n < 10 then n else msdAux fuel (n / 10)

/-- The mode `Operator.write` consults for every opcode other than 3:
`self.modes[-1]`, the last entry of the parsed digit list.  `zfill(5)` pads
the word to at least three mode digits, so for words below 100000 this is
mode digit 2; for longer words it is the word's most significant digit --
which need not be the designated write operand's mode digit. -/
def lastMode (wn : Nat) : Nat :=
  if wn < 100000 then modeAt wn 2 else msdAux (wn / 100) (wn / 100)

/-- `Operator.get_param(i)`: resolve operand `arg` under `mode`.  Falling
through all three branches returns Python `None`, here `none`. -/
def getParam (m : Mem) (base : Int) (mode : Nat) (arg : Int) : Option Int :=
  if mode = 0 then some (m.read arg)
  else if mode = 1 then some arg
  else if mode = 2 then some (m.read (arg + base))
  else none

/-- Python truthiness of a `get_param` result: `None` and `0` are falsy. -/
def truthy : Option Int → Bool
  | some x => x != 0
  | none => false

/-- `Operator.write(val)` followed by the loop's ptr advance (none of the
writing opcodes sets the jump flag).  `mode` is the mode digit `write`
consults, `target` is `self.args[-1]`.  A mode digit outside 0/1/2 matches
no branch in the source, so nothing is written and no error is raised. -/
def doWrite (s : Machine) (mode : Nat) (target val : Int) (oplen : Int) : StepOut :=
  if mode = 0 then
    .next { s with memory := s.memory.write target val, ptr := s.ptr + oplen } false
  else if mode = 1 then .err .invalidWriteTarget s
  else if mode = 2 then
    .next { s with memory := s.memory.write (target + s.relative_base) val,
                   ptr := s.ptr + oplen } false
  else .next { s with ptr := s.ptr + oplen } false

/-- Membership test, `opcode in OP_DICTIONARY`. -/
def knownOpcode (c : Int) : Bool :=
  c == 1 || c == 2 || c == 3 || c == 4 || c == 5 || c == 6 || c == 7 ||
  c == 8 || c == 9 || c == 99

/-- Decode and execute the instruction at `ptr` for a known, non-negative
instruction word `wn`, mirroring each `Operator.execute` body. -/
def execKnown (s : Machine) (wn : Nat) : StepOut :=
  let op := wn % 100
  if op = 99 then
    .halted s
  else if op = 1 then
    match getParam s.memory s.relative_base (modeAt wn 0) (s.memory.read (s.ptr + 1)),
          getParam s.memory s.relative_base (modeAt wn 1) (s.memory.read (s.ptr + 2)) with
    | some a, some b => doWrite s (lastMode wn) (s.memory.read (s.ptr + 3)) (a + b) 4
    | _, _ => .err .badParamMode s
  else if op = 2 then
    match getParam s.memory s.relative_base (modeAt wn 0) (s.memory.read (s.ptr + 1)),
          getParam s.memory s.relative_base (modeAt wn 1) (s.memory.read (s.ptr + 2)) with
    | some a, some b => doWrite s (lastMode wn) (s.memory.read (s.ptr + 3)) (a * b) 4
    | _, _ => .err .badParamMode s
  else if op = 3 then
    match s.input with
    | [] => .err .emptyInput s
    | v :: rest =>
      doWrite { s with input := rest } (modeAt wn 0) (s.memory.read (s.ptr + 1)) v 2
  else if op = 4 then
    match getParam s.memory s.relative_base (modeAt wn 0) (s.memory.read (s.ptr + 1)) with
    | some v => .next { s with output := OutStream.put s.output v, ptr := s.ptr + 2 } true
    | none => .err .badParamMode s
  else if op = 5 then
    if truthy (getParam s.memory s.relative_base (modeAt wn 0) (s.memory.read (s.ptr + 1))) then
      match getParam s.memory s.relative_base (modeAt wn 1) (s.memory.read (s.ptr + 2)) with
      | some t => .next { s with ptr := t } false
      | none => .err .badParamMode s
    else .next { s with ptr := s.ptr + 3 } false
  else if op = 6 then
    if truthy (getParam s.memory s.relative_base (modeAt wn 0) (s.memory.read (s.ptr + 1))) then
      .next { s with ptr := s.ptr + 3 } false
    else
      match getParam s.memory s.relative_base (modeAt wn 1) (s.memory.read (s.ptr + 2)) with
      | some t => .next { s with ptr := t } false
      | none => .err .badParamMode s
  else if op = 7 then
    match getParam s.memory s.relative_base (modeAt wn 0) (s.memory.read (s.ptr + 1)),
          getParam s.memory s.relative_base (modeAt wn 1) (s.memory.read (s.ptr + 2)) with
    | some a, some b =>
      doWrite s (lastMode wn) (s.memory.read (s.ptr + 3)) (if a < b then 1 else 0) 4
    | _, _ => .err .badParamMode s
  else if op = 8 then
    match getParam s.memory s.relative_base (modeAt wn 0) (s.memory.read (s.ptr + 1)),
          getParam s.memory s.relative_base (modeAt wn 1) (s.memory.read (s.ptr + 2)) with
    | some a, some b =>
      doWrite s (lastMode wn) (s.memory.read (s.ptr + 3)) (if a = b then 1 else 0) 4
    | _, _ => .err .badParamMode s
  else if op = 9 then
    match getParam s.memory s.relative_base (modeAt wn 0) (s.memory.read (s.ptr + 1)) with
    | some v =>
      .next { s with relative_base := s.relative_base + v, ptr := s.ptr + 2 } false
    | none => .err .badParamMode s
  else .err .unknownOpcode s

/-- One iteration of the run loop: `_get_current_op` (the dictionary lookup
uses `memory[ptr] % 100` and raises `KeyError` first; a known opcode on a
negative word then faults inside `get_modes`), then `op.execute()` and the
conditional ptr advance. -/
def step (s : Machine) : StepOut :=
  let w := s.memory.read s.ptr
  if knownOpcode (w % 100) then
    if w < 0 then .err .negativeWord s
    else execKnown s w.toNat
  else .err .unknownOpcode s

/-- Outcome of one `Computer.run` call. -/
inductive RunResult where
  /-- `StopIteration` was caught: `self.running = False`, loop exits. -/
  | halted (s : Machine)
  /-- `pause_at_output` break: progress kept, `run` may be called again. -/
  | paused (s : Machine)
  /-- A fatal exception surfaced to the caller. -/
  | err (e : VMError) (s : Machine)
  /-- Fuel ran out (the source would simply still be looping). -/
  | outOfFuel (s : Machine)

/-- The `while self.running` loop of `Computer.run`, with explicit fuel. -/
def runLoop : Nat → Bool → Machine → RunResult
  | 0, _, s => .outOfFuel s
  | fuel + 1, pause, s =>
    match step s with
    | .halted s2 => .halted s2
    | .err e s2 => .err e s2
    | .next s2 outFlag => if pause && outFlag then .paused s2 else runLoop fuel pause s2

/-- The noun/verb patch at the top of `Computer.run`: `if noun:` and
`if verb:` are Python truthiness tests, so a zero value patches nothing. -/
def patchNounVerb (s : Machine) (noun verb : Int) : Machine :=
  let m1 := if noun ≠ 0 then s.memory.write 1 noun else s.memory
  let m2 := if verb ≠ 0 then m1.write 2 verb else m1
  { s with memory := m2 }

/-- `Computer.run(noun, verb, pause_at_output)` with explicit fuel. -/
def Computer.run (noun verb : Int) (pause : Bool) (fuel : Nat) (s : Machine) : RunResult :=
  runLoop fuel pause (patchNounVerb s noun verb)

example : Computer.run 0 0 false 2 (Machine.init.load_code [1101, 5, 5, 0, 99]) =
    .halted ⟨Mem.write (Machine.init.load_code [1101, 5, 5, 0, 99]).memory 0 10, 4, 0, [], []⟩ := rfl

example : Computer.run 0 0 false 3 (Machine.init.load_code [1002, 4, 3, 4, 33]) =
    .halted ⟨Mem.write (Machine.init.load_code [1002, 4, 3, 4, 33]).memory 4 99, 4, 0, [], []⟩ := rfl

/-! ## Helper lemmas about `loadList` -/

lemma loadList_read_lt : ∀ (code : List Int) (m : Mem) (start a : Int), a < start →
    (loadList m start code).read a = m.read a := by
  intro code
  induction code with
  | nil => intro m start a h; rfl
  | cons v rest ih =>
    intro m start a h
    simp only [loadList]
    rw [ih _ _ _ (by omega)]
    simp only [Mem.read, Mem.write]
    rw [if_neg (by omega)]

lemma loadList_read_ge : ∀ (code : List Int) (m : Mem) (start a : Int),
    start + code.length ≤ a → (loadList m start code).read a = m.read a := by
  intro code
  induction code with
  | nil => intro m start a h; rfl
  | cons v rest ih =>
    intro m start a h
    simp only [List.length_cons] at h
    simp only [loadList]
    rw [ih _ _ _ (by omega)]
    simp only [Mem.read, Mem.write]
    rw [if_neg (by push_cast at h; omega)]

lemma loadList_read_at : ∀ (code : List Int) (m : Mem) (start : Int) (i : Nat),
    i < code.length → (loadList m start code).read (start + i) = code.getD i 0 := by
  intro code
  induction code with
  | nil => intro m start i h; simp at h
  | cons v rest ih =>
    intro m start i h
    match i with
    | 0 =>
      simp only [loadList, List.getD]
      rw [loadList_read_lt rest _ _ _ (by omega)]
      simp only [Mem.read, Mem.write]
      rw [if_pos (by push_cast; ring)]
      rfl
    | j + 1 =>
      simp only [loadList]
      have harith : start + ((j + 1 : Nat) : Int) = (start + 1) + (j : Int) := by
        push_cast
        ring
      rw [harith, ih _ _ _ (by simpa using h)]
      rfl

/-! ## C3 -/

/-- C3 counterexample: after producing 1 then 2, `OutStream.get` (the
operation behind `Computer.get_output`) returns the single value 2 — the
most recently produced one — leaving 1 behind, rather than returning all
values produced since the last drain in production order (which would have
to start with 1 and empty the buffer). -/
theorem c3_counterexample :
    OutStream.get (OutStream.put (OutStream.put [] 1) 2) = some (2, [1]) ∧
    Machine.get_output ⟨Mem.empty, 0, 0, [], [1, 2]⟩ =
      some (2, ⟨Mem.empty, 0, 0, [], [1]⟩) ∧
    (2 : Int) ≠ 1 :=
  ⟨rfl, rfl, by decide⟩

/-- C3 amended: the output-drain operation (`OutStream.get`, used by
`Computer.get_output`) removes and returns the single most recently
produced value (LIFO `list.pop()`), and errors on an empty buffer;
production appends to the end of the buffer. -/
theorem c3_drain_is_single_lifo_pop :
    (∀ (l : List Int) (v : Int), OutStream.get (l ++ [v]) = some (v, l)) ∧
    OutStream.get [] = none ∧
    (∀ (l : List Int) (v : Int), OutStream.put l v = l ++ [v]) := by
  refine ⟨?_, rfl, fun l v => rfl⟩
  intro l v
  simp [OutStream.get, List.getLast?_concat, List.dropLast_concat]

/-! ## C4 -/

def machineC4 : Machine := ⟨Mem.empty, 5, 7, [], []⟩

/-- C4 counterexample: `load_code` does not reset `ptr` or
`relative_base` — loading `[99]` into a machine with `ptr = 5` and
`relative_base = 7` leaves both untouched. -/
theorem c4_counterexample :
    (machineC4.load_code [99]).ptr = 5 ∧ ((5 : Int) ≠ 0) ∧
    (machineC4.load_code [99]).relative_base = 7 ∧ ((7 : Int) ≠ 0) :=
  ⟨rfl, by decide, rfl, by decide⟩

/-- C4 amended: for every prior machine state, `load_code` copies the
integer sequence into Memory at addresses `0 .. len-1`, leaves every other
address and all other machine components (`ptr`, `relative_base`, the two
streams) unchanged, and in particular does NOT reset `ptr` or
`relative_base` (that is the job of the separate `reset` method, or of
constructing a fresh Computer). -/
theorem c4_load_copies_but_does_not_reset :
    ∀ (s : Machine) (code : List Int),
      (s.load_code code).ptr = s.ptr ∧
      (s.load_code code).relative_base = s.relative_base ∧
      (s.load_code code).input = s.input ∧
      (s.load_code code).output = s.output ∧
      (∀ i : Nat, i < code.length → (s.load_code code).memory.read i = code.getD i 0) ∧
      (∀ a : Int, a < 0 ∨ (code.length : Int) ≤ a →
        (s.load_code code).memory.read a = s.memory.read a) := by
  intro s code
  refine ⟨rfl, rfl, rfl, rfl, ?_, ?_⟩
  · intro i h
    have := loadList_read_at code s.memory 0 i h
    simpa using this
  · intro a h
    rcases h with h | h
    · exact loadList_read_lt code s.memory 0 a h
    · exact loadList_read_ge code s.memory 0 a (by omega)

theorem c4_witness :
    (machineC4.load_code [7, 8]).ptr = 5 ∧
    (machineC4.load_code [7, 8]).memory.read 1 = 8 ∧
    (machineC4.load_code [7, 8]).memory.read (-3) = 0 := by
  have h := c4_load_copies_but_does_not_reset machineC4 [7, 8]
  refine ⟨h.1, ?_, ?_⟩
  · have := h.2.2.2.2.1 1 (by decide)
    simpa using this
  · have := h.2.2.2.2.2 (-3) (Or.inl (by decide))
    exact this

/-! ## C5 -/

def machineC5 : Machine := Machine.init.load_code [4, -1, 99]

def machineC5w : Machine := Machine.init.load_code [1101, 3, 4, -2, 99]

/-- C5 counterexample: negative addresses do not signal any error.  Writing
at address -1 succeeds and reads back, and the program `[4, -1, 99]` — an
Output instruction reading positionally through address -1 — runs to a
normal halt emitting the default value 0, with no `InvalidAddress` (indeed
no error of any kind). -/
theorem c5_counterexample :
    (Mem.write Mem.empty (-1) 42).read (-1) = 42 ∧
    Computer.run 0 0 false 2 machineC5 = .halted ⟨machineC5.memory, 2, 0, [], [0]⟩ :=
  ⟨rfl, rfl⟩

/-- C5 amended: a Memory read returns the stored value, or 0 if the address
was never written, for EVERY integer address — negative ones included.
`defaultdict(int)` performs no sign check, so a negative address used for a
read or a write succeeds exactly like any other; no `InvalidAddress` error
exists in the code.  The program `[1101, 3, 4, -2, 99]` writes 7 to address
-2 and halts normally. -/
theorem c5_negative_addresses_succeed :
    (∀ (m : Mem) (a v : Int), (m.write a v).read a = v) ∧
    (∀ a : Int, Mem.empty.read a = 0) ∧
    Computer.run 0 0 false 2 machineC5w =
      .halted ⟨Mem.write machineC5w.memory (-2) 7, 4, 0, [], []⟩ := by
  refine ⟨?_, fun a => rfl, rfl⟩
  intro m a v
  simp [Mem.read, Mem.write]

/-! ## C9 -/

/-- C9: the noun/verb patch at the top of `run` is guarded by Python
truthiness (`if noun:` / `if verb:`), so passing 0 for either leaves the
corresponding address (1 resp. 2) untouched — a zero value cannot be
patched in through the `run` parameters; and `run` is exactly the loop
applied to the patched state. -/
theorem c9_zero_noun_verb_not_patched :
    (∀ (s : Machine) (verb : Int),
      (patchNounVerb s 0 verb).memory.read 1 = s.memory.read 1) ∧
    (∀ (s : Machine) (noun : Int),
      (patchNounVerb s noun 0).memory.read 2 = s.memory.read 2) ∧
    (∀ (s : Machine) (noun verb : Int) (pause : Bool) (fuel : Nat),
      Computer.run noun verb pause fuel s = runLoop fuel pause (patchNounVerb s noun verb)) := by
  refine ⟨?_, ?_, fun s n v p f => rfl⟩
  · intro s verb
    by_cases hv : verb = 0 <;>
      simp [patchNounVerb, hv, Mem.read, Mem.write]
  · intro s noun
    by_cases hn : noun = 0 <;>
      simp [patchNounVerb, hn, Mem.read, Mem.write]

/-! ## C10 -/

def machineC10a : Machine := ⟨loadList Mem.empty 0 [99], 0, 0, [], [5]⟩

def machineC10b : Machine := ⟨loadList Mem.empty 0 [99], 0, 0, [], []⟩

/-- C10 counterexample: two machines agreeing on Memory, ptr,
relative_base and InputQueue but holding different prior OutputSink
contents run to results whose OutputSink contents differ (the sink is
carried along, not recreated), so equality of the four listed components
alone does not give equal resulting OutputSink contents. -/
theorem c10_counterexample :
    machineC10a.memory = machineC10b.memory ∧
    machineC10a.ptr = machineC10b.ptr ∧
    machineC10a.relative_base = machineC10b.relative_base ∧
    machineC10a.input = machineC10b.input ∧
    Computer.run 0 0 false 1 machineC10a = .halted machineC10a ∧
    Computer.run 0 0 false 1 machineC10b = .halted machineC10b ∧
    machineC10a.output ≠ machineC10b.output :=
  ⟨rfl, rfl, rfl, rfl, rfl, rfl, by decide⟩

/-- C10 amended: execution is deterministic — two Computer instances equal
in Memory contents, ptr, relative_base, InputQueue contents AND OutputSink
contents yield identical `run` results (resulting Memory, ptr,
relative_base, remaining InputQueue, OutputSink, or the same error) for the
same arguments.  The initial OutputSink equality is forced by the
counterexample: the sink accumulates across runs. -/
theorem c10_determinism :
    ∀ (s1 s2 : Machine) (noun verb : Int) (pause : Bool) (fuel : Nat),
      s1.memory = s2.memory → s1.ptr = s2.ptr → s1.relative_base = s2.relative_base →
      s1.input = s2.input → s1.output = s2.output →
      Computer.run noun verb pause fuel s1 = Computer.run noun verb pause fuel s2 := by
  intro s1 s2 noun verb pause fuel h1 h2 h3 h4 h5
  cases s1
  cases s2
  dsimp only at h1 h2 h3 h4 h5
  subst h1; subst h2; subst h3; subst h4; subst h5
  rfl

theorem c10_witness :
    Computer.run 0 0 false 1 ⟨Mem.empty, 0, 0, [], []⟩ =
      Computer.run 0 0 false 1 Machine.init :=
  c10_determinism ⟨Mem.empty, 0, 0, [], []⟩ Machine.init 0 0 false 1 rfl rfl rfl rfl rfl

/-! ## Symbolic stepping helper -/

lemma step_eq_execKnown (s : Machine) (w : Int) (hw : s.memory.read s.ptr = w)
    (h0 : 0 ≤ w) (hk : knownOpcode (w % 100) = true) :
    step s = execKnown s w.toNat := by
  simp only [step, hw, hk]
  rw [if_pos trivial, if_neg (by omega : ¬ w < 0)]

lemma runLoop_step_next_false (n : Nat) (pause : Bool) (s s2 : Machine)
    (h : step s = .next s2 false) :
    runLoop (n + 1) pause s = runLoop n pause s2 := by
  simp [runLoop, h]

lemma runLoop_step_halted (n : Nat) (pause : Bool) (s s2 : Machine)
    (h : step s = .halted s2) :
    runLoop (n + 1) pause s = .halted s2 := by
  simp [runLoop, h]

/-! ## C7 -/

/-- C7: executing an Input instruction (opcode 3) with an empty InputQueue
is a fatal `BlockingInput` error (`RuntimeError` from `InStream.get`): the
step faults with the machine state — Memory in particular — completely
unmodified, and the surrounding run surfaces the error instead of pausing
or halting. -/
theorem c7_empty_input_fatal :
    ∀ (s : Machine) (fuel : Nat) (pause : Bool),
      s.input = [] →
      0 ≤ s.memory.read s.ptr →
      s.memory.read s.ptr % 100 = 3 →
      step s = .err .emptyInput s ∧
      runLoop (fuel + 1) pause s = .err .emptyInput s := by
  intro s fuel pause hin h0 hop
  have hk : knownOpcode (s.memory.read s.ptr % 100) = true := by
    rw [hop]; decide
  have hn : (s.memory.read s.ptr).toNat % 100 = 3 := by omega
  have hstep : step s = .err .emptyInput s := by
    rw [step_eq_execKnown s _ rfl h0 hk]
    simp [execKnown, hn, hin]
  exact ⟨hstep, by simp [runLoop, hstep]⟩

def machineC7 : Machine := Machine.init.load_code [3, 0, 99]

theorem c7_witness :
    step machineC7 = .err .emptyInput machineC7 ∧
    runLoop 1 false machineC7 = .err .emptyInput machineC7 :=
  c7_empty_input_fatal machineC7 0 false rfl (by decide) (by decide)

/-! ## C6 -/

def machineC6 : Machine := Machine.init.load_code [212101, 5, 0, 3, 99]

/-- C6 counterexample: the instruction word 212101 decodes (per the digit
rule the source itself uses for reads) to opcode 1 with write-operand mode
digit `modeAt 212101 2 = 1`, i.e. an immediate-mode write target — yet
`Operator.write` consults `modes[-1]`, here the word's MOST significant
digit 2, so the program `[212101, 5, 0, 3, 99]` raises no
`InvalidWriteTarget` at all: it writes 212106 through relative mode into
address 3 and halts normally. -/
theorem c6_counterexample :
    modeAt 212101 2 = 1 ∧
    Computer.run 0 0 false 2 machineC6 =
      .halted ⟨Mem.write machineC6.memory 3 212106, 4, 0, [], []⟩ ∧
    (Mem.write machineC6.memory 3 212106).read 3 = 212106 ∧
    machineC6.memory.read 3 = 3 :=
  ⟨by decide, rfl, rfl, rfl⟩

lemma execKnown_mathop_immediate_write (s : Machine) (wn : Nat)
    (hop : wn % 100 = 1 ∨ wn % 100 = 2 ∨ wn % 100 = 7 ∨ wn % 100 = 8)
    (hm0 : modeAt wn 0 ≤ 2) (hm1 : modeAt wn 1 ≤ 2)
    (hlm : lastMode wn = 1) :
    execKnown s wn = .err .invalidWriteTarget s := by
  have hm0c : modeAt wn 0 = 0 ∨ modeAt wn 0 = 1 ∨ modeAt wn 0 = 2 := by omega
  have hm1c : modeAt wn 1 = 0 ∨ modeAt wn 1 = 1 ∨ modeAt wn 1 = 2 := by omega
  rcases hop with h | h | h | h <;>
    rcases hm0c with h0c | h0c | h0c <;>
    rcases hm1c with h1c | h1c | h1c <;>
      simp [execKnown, h, h0c, h1c, getParam, doWrite, hlm]

/-- C6 amended: the guarantee holds for canonical instruction words, i.e.
words below 100000 (at most five decimal digits, the `zfill(5)` template).
For such a word of any write-producing arithmetic/comparison opcode
(1, 2, 7, 8) whose decoded write-operand mode digit is 1, and for an Input
instruction (opcode 3) whose single mode digit is 1, execution raises
`InvalidWriteTarget` before mutating Memory (for Input, the popped queue
entry is already consumed — the source pops before writing — but Memory is
untouched).  For words of six or more digits the check instead applies to
`modes[-1]`, the most significant digit, as the counterexample shows. -/
theorem c6_immediate_write_rejected_for_canonical_words :
    ∀ (s : Machine),
      (∀ w : Int, s.memory.read s.ptr = w → 0 ≤ w → w < 100000 →
        (w % 100 = 1 ∨ w % 100 = 2 ∨ w % 100 = 7 ∨ w % 100 = 8) →
        modeAt w.toNat 2 = 1 → modeAt w.toNat 0 ≤ 2 → modeAt w.toNat 1 ≤ 2 →
        step s = .err .invalidWriteTarget s) ∧
      (∀ w : Int, s.memory.read s.ptr = w → 0 ≤ w →
        w % 100 = 3 → modeAt w.toNat 0 = 1 →
        ∀ v rest, s.input = v :: rest →
        step s = .err .invalidWriteTarget { s with input := rest }) := by
  intro s
  constructor
  · intro w hw h0 hlt hop hm2 hm0 hm1
    have hk : knownOpcode (w % 100) = true := by
      rcases hop with h | h | h | h <;> rw [h] <;> decide
    have hopn : w.toNat % 100 = 1 ∨ w.toNat % 100 = 2 ∨
        w.toNat % 100 = 7 ∨ w.toNat % 100 = 8 := by omega
    have hlm : lastMode w.toNat = 1 := by
      simp only [lastMode]
      rw [if_pos (by omega : w.toNat < 100000), hm2]
    rw [step_eq_execKnown s w hw h0 hk]
    exact execKnown_mathop_immediate_write s w.toNat hopn hm0 hm1 hlm
  · intro w hw h0 hop hm0 v rest hin
    have hk : knownOpcode (w % 100) = true := by rw [hop]; decide
    have hn : w.toNat % 100 = 3 := by omega
    rw [step_eq_execKnown s w hw h0 hk]
    simp [execKnown, hn, hin, doWrite, hm0]

def machineC6w : Machine := Machine.init.load_code [10102, 3, 4, 1, 99]

theorem c6_witness :
    step machineC6w = .err .invalidWriteTarget machineC6w :=
  (c6_immediate_write_rejected_for_canonical_words machineC6w).1 10102 rfl
    (by decide) (by decide) (Or.inr (Or.inl (by decide)))
    (by decide) (by decide) (by decide)

/-! ## C8 -/

def progC8 (v : Int) : Machine :=
  Machine.init.load_code [109, -7, 21101, v, 0, 107, 204, 107, 99]

def progC8s1 (v : Int) : Machine := ⟨(progC8 v).memory, 2, -7, [], []⟩

def progC8s2 (v : Int) : Machine :=
  ⟨Mem.write (progC8 v).memory 100 (v + 0), 6, -7, [], []⟩

def progC8s3 (v : Int) : Machine :=
  ⟨Mem.write (progC8 v).memory 100 (v + 0), 8, -7, [], [v + 0]⟩

/-- C8: relative addressing round trip.  First, a relative-mode (mode 2)
operand read resolves to Memory at `operand + relative_base` for every
base (negative included) and operand.  Second, the Adjust-Relative-Base
instruction (opcode 9) adds its read operand to `relative_base`.  Third,
the program `[109, -7, 21101, v, 0, 107, 204, 107, 99]` sets the base to
the negative offset -7 via opcode 9, writes `v` through relative-mode
operand 107 (resolving to address 100), reads it back through the same
relative-mode operand, and halts having emitted exactly the written value. -/
theorem c8_relative_base_round_trip :
    (∀ (m : Mem) (base arg : Int), getParam m base 2 arg = some (m.read (arg + base))) ∧
    (∀ (s : Machine) (v : Int),
      0 ≤ s.memory.read s.ptr →
      s.memory.read s.ptr % 100 = 9 →
      getParam s.memory s.relative_base (modeAt (s.memory.read s.ptr).toNat 0)
        (s.memory.read (s.ptr + 1)) = some v →
      step s = .next { s with relative_base := s.relative_base + v, ptr := s.ptr + 2 } false) ∧
    (∀ v : Int, ∃ sf : Machine,
      Computer.run 0 0 false 4 (progC8 v) = .halted sf ∧
      sf.relative_base = -7 ∧ sf.memory.read 100 = v ∧ sf.output = [v]) := by
  refine ⟨fun m base arg => rfl, ?_, ?_⟩
  · intro s v h0 hop hg
    have hk : knownOpcode (s.memory.read s.ptr % 100) = true := by
      rw [hop]; decide
    have hn : (s.memory.read s.ptr).toNat % 100 = 9 := by omega
    rw [step_eq_execKnown s _ rfl h0 hk]
    simp [execKnown, hn, hg]
  · intro v
    have h1 : step (progC8 v) = .next (progC8s1 v) false := by
      rw [step_eq_execKnown (progC8 v) 109 rfl (by decide) (by decide)]; rfl
    have h2 : step (progC8s1 v) = .next (progC8s2 v) false := by
      rw [step_eq_execKnown (progC8s1 v) 21101 rfl (by decide) (by decide)]; rfl
    have h3 : step (progC8s2 v) = .next (progC8s3 v) true := by
      rw [step_eq_execKnown (progC8s2 v) 204 rfl (by decide) (by decide)]; rfl
    have h4 : step (progC8s3 v) = .halted (progC8s3 v) := by
      rw [step_eq_execKnown (progC8s3 v) 99 rfl (by decide) (by decide)]; rfl
    have hrun : Computer.run 0 0 false 4 (progC8 v) = .halted (progC8s3 v) := by
      have u1 := runLoop_step_next_false 3 false _ _ h1
      have u2 := runLoop_step_next_false 2 false _ _ h2
      have u3 : runLoop 2 false (progC8s2 v) = runLoop 1 false (progC8s3 v) := by
        simp [runLoop, h3]
      have u4 := runLoop_step_halted 0 false _ _ h4
      exact (u1.trans u2).trans (u3.trans u4)
    refine ⟨progC8s3 v, hrun, rfl, ?_, by simp [progC8s3]⟩
    simp [progC8s3, Mem.read, Mem.write]

def machineC8 : Machine := Machine.init.load_code [109, 3, 99]

theorem c8_witness :
    step machineC8 = .next ⟨machineC8.memory, 2, 3, [], []⟩ false :=
  c8_relative_base_round_trip.2.1 machineC8 3 (by decide) (by decide) rfl

/-! ## C1 -/

/-- Outcome of one step of the reference Add/Multiply/Halt evaluation. -/
inductive RefOut where
  | halt (m : Mem) (p : Int)
  | cont (m : Mem) (p : Int)
  | stuck

/-- Modelled from the spec: reference resolution of a read operand —
"mode 0 → Memory.read(operand); mode 1 → the operand itself; mode 2 →
Memory.read(operand + relative_base)".  A program built only from Add,
Multiply and Halt never executes opcode 9, the sole mutator of the
relative base, so the base keeps its loaded value: the `+ 0` in the
relative branch is that relative base. -/
def refParam (m : Mem) (mode : Nat) (arg : Int) : Int :=
  if mode = 0 then m.read arg
  else if mode = 1 then arg
  else m.read (arg + 0)

/-- Modelled from the spec: one step of the reference arithmetic
evaluation of a program consisting of Add (opcode 1) and Multiply
(opcode 2) instructions followed by Halt (opcode 99).  Decoding follows
the spec text — opcode is the word mod 100, mode digit `i` is decimal
digit `i` (least significant first) of word / 100 — and the instruction
word is required to be canonical: non-negative, below 100000 (the five
digit `zfill` template), read modes in 0/1/2 and write mode 0 or 2.
The stored value is the reference arithmetic `a + b` resp. `a * b`; the
write target resolves like a mode 0 / mode 2 operand; control advances
4 words.  Anything else is stuck. -/
def refAddMulStep (m : Mem) (p : Int) : RefOut :=
  let w := m.read p
  if w < 0 then .stuck
  else if w % 100 = 99 then .halt m p
  else if (w % 100 = 1 ∨ w % 100 = 2) ∧ w < 100000 ∧
      modeAt w.toNat 0 ≤ 2 ∧ modeAt w.toNat 1 ≤ 2 ∧
      (modeAt w.toNat 2 = 0 ∨ modeAt w.toNat 2 = 2) then
    let a := refParam m (modeAt w.toNat 0) (m.read (p + 1))
    let b := refParam m (modeAt w.toNat 1) (m.read (p + 2))
    let val := if w % 100 = 1 then a + b else a * b
    let target := if modeAt w.toNat 2 = 0 then m.read (p + 3) else m.read (p + 3) + 0
    .cont (m.write target val) (p + 4)
  else .stuck

/-- Modelled from the spec: reference arithmetic evaluation run to the
Halt instruction, returning the final memory and halt position. -/
def refAddMulRun : Nat → Mem → Int → Option (Mem × Int)
  | 0, _, _ => none
  | fuel + 1, m, p =>
    match refAddMulStep m p with
    | .halt m2 p2 => some (m2, p2)
    | .cont m2 p2 => refAddMulRun fuel m2 p2
    | .stuck => none

lemma refStep_halt_step (m : Mem) (p : Int) (inp out : List Int) (m2 : Mem) (p2 : Int)
    (h : refAddMulStep m p = .halt m2 p2) :
    m2 = m ∧ p2 = p ∧ step ⟨m, p, 0, inp, out⟩ = .halted ⟨m, p, 0, inp, out⟩ := by
  simp only [refAddMulStep] at h
  split_ifs at h with hneg h99
  injection h with hm hp
  refine ⟨hm.symm, hp.symm, ?_⟩
  have hk : knownOpcode (m.read p % 100) = true := by rw [h99]; decide
  rw [step_eq_execKnown ⟨m, p, 0, inp, out⟩ (m.read p) rfl (by omega) hk]
  have hn : (m.read p).toNat % 100 = 99 := by omega
  simp [execKnown, hn]

lemma refStep_cont_step (m : Mem) (p : Int) (inp out : List Int) (m2 : Mem) (p2 : Int)
    (h : refAddMulStep m p = .cont m2 p2) :
    step ⟨m, p, 0, inp, out⟩ = .next ⟨m2, p2, 0, inp, out⟩ false := by
  simp only [refAddMulStep] at h
  split_ifs at h with hneg h99 hcond htg hvl hvl2
  · -- opcode 1, positional write target
    obtain ⟨hops, hlt, hm0, hm1, hm2s⟩ := hcond
    injection h with hm hp
    subst hm; subst hp
    have hk : knownOpcode (m.read p % 100) = true := by rw [hvl]; decide
    have hn : (m.read p).toNat % 100 = 1 := by omega
    have hlm : lastMode (m.read p).toNat = modeAt (m.read p).toNat 2 := by
      simp only [lastMode]
      rw [if_pos (by omega : (m.read p).toNat < 100000)]
    have hm0c : modeAt (m.read p).toNat 0 = 0 ∨ modeAt (m.read p).toNat 0 = 1 ∨
        modeAt (m.read p).toNat 0 = 2 := by omega
    have hm1c : modeAt (m.read p).toNat 1 = 0 ∨ modeAt (m.read p).toNat 1 = 1 ∨
        modeAt (m.read p).toNat 1 = 2 := by omega
    rw [step_eq_execKnown ⟨m, p, 0, inp, out⟩ (m.read p) rfl (by omega) hk]
    rcases hm0c with h0c | h0c | h0c <;> rcases hm1c with h1c | h1c | h1c <;>
      simp [execKnown, getParam, refParam, doWrite, hn, hlm, h0c, h1c, htg]
  · -- opcode 2, positional write target
    obtain ⟨hops, hlt, hm0, hm1, hm2s⟩ := hcond
    injection h with hm hp
    subst hm; subst hp
    have hv2 : m.read p % 100 = 2 := by
      rcases hops with h2 | h2
      · exact absurd h2 hvl
      · exact h2
    have hk : knownOpcode (m.read p % 100) = true := by rw [hv2]; decide
    have hn : (m.read p).toNat % 100 = 2 := by omega
    have hlm : lastMode (m.read p).toNat = modeAt (m.read p).toNat 2 := by
      simp only [lastMode]
      rw [if_pos (by omega : (m.read p).toNat < 100000)]
    have hm0c : modeAt (m.read p).toNat 0 = 0 ∨ modeAt (m.read p).toNat 0 = 1 ∨
        modeAt (m.read p).toNat 0 = 2 := by omega
    have hm1c : modeAt (m.read p).toNat 1 = 0 ∨ modeAt (m.read p).toNat 1 = 1 ∨
        modeAt (m.read p).toNat 1 = 2 := by omega
    rw [step_eq_execKnown ⟨m, p, 0, inp, out⟩ (m.read p) rfl (by omega) hk]
    rcases hm0c with h0c | h0c | h0c <;> rcases hm1c with h1c | h1c | h1c <;>
      simp [execKnown, getParam, refParam, doWrite, hn, hlm, h0c, h1c, htg]
  · -- opcode 1, relative write target
    obtain ⟨hops, hlt, hm0, hm1, hm2s⟩ := hcond
    injection h with hm hp
    subst hm; subst hp
    have h2c : modeAt (m.read p).toNat 2 = 2 := by
      rcases hm2s with h2 | h2
      · exact absurd h2 htg
      · exact h2
    have hk : knownOpcode (m.read p % 100) = true := by rw [hvl2]; decide
    have hn : (m.read p).toNat % 100 = 1 := by omega
    have hlm : lastMode (m.read p).toNat = modeAt (m.read p).toNat 2 := by
      simp only [lastMode]
      rw [if_pos (by omega : (m.read p).toNat < 100000)]
    have hm0c : modeAt (m.read p).toNat 0 = 0 ∨ modeAt (m.read p).toNat 0 = 1 ∨
        modeAt (m.read p).toNat 0 = 2 := by omega
    have hm1c : modeAt (m.read p).toNat 1 = 0 ∨ modeAt (m.read p).toNat 1 = 1 ∨
        modeAt (m.read p).toNat 1 = 2 := by omega
    rw [step_eq_execKnown ⟨m, p, 0, inp, out⟩ (m.read p) rfl (by omega) hk]
    rcases hm0c with h0c | h0c | h0c <;> rcases hm1c with h1c | h1c | h1c <;>
      simp [execKnown, getParam, refParam, doWrite, hn, hlm, h0c, h1c, h2c]
  · -- opcode 2, relative write target
    obtain ⟨hops, hlt, hm0, hm1, hm2s⟩ := hcond
    injection h with hm hp
    subst hm; subst hp
    have h2c : modeAt (m.read p).toNat 2 = 2 := by
      rcases hm2s with h2 | h2
      · exact absurd h2 htg
      · exact h2
    have hv2 : m.read p % 100 = 2 := by
      rcases hops with h2 | h2
      · exact absurd h2 hvl2
      · exact h2
    have hk : knownOpcode (m.read p % 100) = true := by rw [hv2]; decide
    have hn : (m.read p).toNat % 100 = 2 := by omega
    have hlm : lastMode (m.read p).toNat = modeAt (m.read p).toNat 2 := by
      simp only [lastMode]
      rw [if_pos (by omega : (m.read p).toNat < 100000)]
    have hm0c : modeAt (m.read p).toNat 0 = 0 ∨ modeAt (m.read p).toNat 0 = 1 ∨
        modeAt (m.read p).toNat 0 = 2 := by omega
    have hm1c : modeAt (m.read p).toNat 1 = 0 ∨ modeAt (m.read p).toNat 1 = 1 ∨
        modeAt (m.read p).toNat 1 = 2 := by omega
    rw [step_eq_execKnown ⟨m, p, 0, inp, out⟩ (m.read p) rfl (by omega) hk]
    rcases hm0c with h0c | h0c | h0c <;> rcases hm1c with h1c | h1c | h1c <;>
      simp [execKnown, getParam, refParam, doWrite, hn, hlm, h0c, h1c, h2c]

lemma runLoop_of_refAddMulRun : ∀ (fuel : Nat) (m : Mem) (p : Int) (m2 : Mem) (p2 : Int)
    (inp out : List Int) (pause : Bool),
    refAddMulRun fuel m p = some (m2, p2) →
    runLoop fuel pause ⟨m, p, 0, inp, out⟩ = .halted ⟨m2, p2, 0, inp, out⟩ := by
  intro fuel
  induction fuel with
  | zero =>
    intro m p m2 p2 inp out pause h
    simp [refAddMulRun] at h
  | succ n ih =>
    intro m p m2 p2 inp out pause h
    simp only [refAddMulRun] at h
    cases hs : refAddMulStep m p with
    | halt mh ph =>
      rw [hs] at h
      simp at h
      obtain ⟨hm, hp⟩ := h
      obtain ⟨hm2, hp2, hstep⟩ := refStep_halt_step m p inp out mh ph hs
      rw [runLoop_step_halted n pause _ _ hstep]
      rw [← hm, hm2, ← hp, hp2]
    | cont mc pc =>
      rw [hs] at h
      simp only [] at h
      have hstep := refStep_cont_step m p inp out mc pc hs
      rw [runLoop_step_next_false n pause _ _ hstep]
      exact ih mc pc m2 p2 inp out pause h
    | stuck =>
      rw [hs] at h
      simp at h

def machineC1 : Machine := Machine.init.load_code [1101, 5, 5, 0, 99]

/-- C1: refinement against a reference arithmetic evaluator.  Whenever the
spec-modelled reference evaluation of an Add/Multiply/Halt program runs to
completion from memory `m` at position `p`, the machine run (with no
noun/verb patch) from the same loaded state halts with exactly the
reference's final memory; in particular loading `[1101, 5, 5, 0, 99]`
(immediate-mode add of 5 and 5 into address 0) and running leaves
Memory[0] = 10. -/
theorem c1_addmul_matches_reference :
    (∀ (fuel : Nat) (m m2 : Mem) (p p2 : Int) (inp out : List Int) (pause : Bool),
      refAddMulRun fuel m p = some (m2, p2) →
      Computer.run 0 0 pause fuel ⟨m, p, 0, inp, out⟩ = .halted ⟨m2, p2, 0, inp, out⟩) ∧
    (∃ sf : Machine,
      Computer.run 0 0 false 2 machineC1 = .halted sf ∧ sf.memory.read 0 = 10) := by
  constructor
  · intro fuel m m2 p p2 inp out pause h
    exact runLoop_of_refAddMulRun fuel m p m2 p2 inp out pause h
  · exact ⟨⟨Mem.write machineC1.memory 0 10, 4, 0, [], []⟩, rfl, rfl⟩

theorem c1_witness :
    Computer.run 0 0 false 2 ⟨machineC1.memory, 0, 0, [], []⟩ =
      .halted ⟨Mem.write machineC1.memory 0 10, 4, 0, [], []⟩ :=
  c1_addmul_matches_reference.1 2 machineC1.memory (Mem.write machineC1.memory 0 10)
    0 4 [] [] false rfl

/-! ## C2 helper lemmas: how one step treats the output buffer -/

lemma doWrite_characterize (s : Machine) (mode : Nat) (target val oplen : Int) :
    (∃ s2, doWrite s mode target val oplen = .next s2 false ∧ s2.output = s.output) ∨
    doWrite s mode target val oplen = .err .invalidWriteTarget s := by
  unfold doWrite
  split_ifs
  · exact Or.inl ⟨_, rfl, rfl⟩
  · exact Or.inr rfl
  · exact Or.inl ⟨_, rfl, rfl⟩
  · exact Or.inl ⟨_, rfl, rfl⟩

lemma step_characterize (s : Machine) :
    step s = .halted s ∨
    (∃ e s2, step s = .err e s2 ∧ s2.output = s.output) ∨
    (∃ s2, step s = .next s2 false ∧ s2.output = s.output) ∨
    (∃ s2 v, step s = .next s2 true ∧ s2.output = s.output ++ [v]) := by
  by_cases hk : knownOpcode (s.memory.read s.ptr % 100) = true
  · by_cases hneg : s.memory.read s.ptr < 0
    · exact Or.inr (Or.inl ⟨.negativeWord, s, by simp [step, hk, hneg], rfl⟩)
    · have hstep : step s = execKnown s (s.memory.read s.ptr).toNat :=
        step_eq_execKnown s _ rfl (by omega) hk
      rw [hstep]
      simp only [knownOpcode, Bool.or_eq_true, beq_iff_eq] at hk
      generalize hg : (s.memory.read s.ptr).toNat = wn
      have hops : wn % 100 = 1 ∨ wn % 100 = 2 ∨ wn % 100 = 3 ∨ wn % 100 = 4 ∨
          wn % 100 = 5 ∨ wn % 100 = 6 ∨ wn % 100 = 7 ∨ wn % 100 = 8 ∨
          wn % 100 = 9 ∨ wn % 100 = 99 := by omega
      rcases hops with hop | hop | hop | hop | hop | hop | hop | hop | hop | hop
      · -- Add
        rcases hga : getParam s.memory s.relative_base (modeAt wn 0) (s.memory.read (s.ptr + 1))
            with _ | a
        · exact Or.inr (Or.inl ⟨.badParamMode, s, by simp [execKnown, hop, hga], rfl⟩)
        · rcases hgb : getParam s.memory s.relative_base (modeAt wn 1) (s.memory.read (s.ptr + 2))
              with _ | b
          · exact Or.inr (Or.inl ⟨.badParamMode, s, by simp [execKnown, hop, hga, hgb], rfl⟩)
          · have hd : execKnown s wn =
                doWrite s (lastMode wn) (s.memory.read (s.ptr + 3)) (a + b) 4 := by
              simp [execKnown, hop, hga, hgb]
            rw [hd]
            rcases doWrite_characterize s (lastMode wn) (s.memory.read (s.ptr + 3)) (a + b) 4
                with ⟨s2, hw, ho⟩ | hw
            · exact Or.inr (Or.inr (Or.inl ⟨s2, hw, ho⟩))
            · exact Or.inr (Or.inl ⟨.invalidWriteTarget, s, hw, rfl⟩)
      · -- Multiply
        rcases hga : getParam s.memory s.relative_base (modeAt wn 0) (s.memory.read (s.ptr + 1))
            with _ | a
        · exact Or.inr (Or.inl ⟨.badParamMode, s, by simp [execKnown, hop, hga], rfl⟩)
        · rcases hgb : getParam s.memory s.relative_base (modeAt wn 1) (s.memory.read (s.ptr + 2))
              with _ | b
          · exact Or.inr (Or.inl ⟨.badParamMode, s, by simp [execKnown, hop, hga, hgb], rfl⟩)
          · have hd : execKnown s wn =
                doWrite s (lastMode wn) (s.memory.read (s.ptr + 3)) (a * b) 4 := by
              simp [execKnown, hop, hga, hgb]
            rw [hd]
            rcases doWrite_characterize s (lastMode wn) (s.memory.read (s.ptr + 3)) (a * b) 4
                with ⟨s2, hw, ho⟩ | hw
            · exact Or.inr (Or.inr (Or.inl ⟨s2, hw, ho⟩))
            · exact Or.inr (Or.inl ⟨.invalidWriteTarget, s, hw, rfl⟩)
      · -- Input
        rcases hin : s.input with _ | ⟨v, rest⟩
        · exact Or.inr (Or.inl ⟨.emptyInput, s, by simp [execKnown, hop, hin], rfl⟩)
        · have hd : execKnown s wn =
              doWrite { s with input := rest } (modeAt wn 0) (s.memory.read (s.ptr + 1)) v 2 := by
            simp [execKnown, hop, hin]
          rw [hd]
          rcases doWrite_characterize { s with input := rest } (modeAt wn 0)
              (s.memory.read (s.ptr + 1)) v 2 with ⟨s2, hw, ho⟩ | hw
          · exact Or.inr (Or.inr (Or.inl ⟨s2, hw, ho⟩))
          · exact Or.inr (Or.inl ⟨.invalidWriteTarget, { s with input := rest }, hw, rfl⟩)
      · -- Output
        rcases hga : getParam s.memory s.relative_base (modeAt wn 0) (s.memory.read (s.ptr + 1))
            with _ | v
        · exact Or.inr (Or.inl ⟨.badParamMode, s, by simp [execKnown, hop, hga], rfl⟩)
        · exact Or.inr (Or.inr (Or.inr ⟨{ s with output := OutStream.put s.output v, ptr := s.ptr + 2 }, v, by simp [execKnown, hop, hga], rfl⟩))
      · -- Jump-if-true
        by_cases ht : truthy (getParam s.memory s.relative_base (modeAt wn 0)
            (s.memory.read (s.ptr + 1))) = true
        · rcases hgb : getParam s.memory s.relative_base (modeAt wn 1) (s.memory.read (s.ptr + 2))
              with _ | tgt
          · exact Or.inr (Or.inl ⟨.badParamMode, s, by simp [execKnown, hop, ht, hgb], rfl⟩)
          · exact Or.inr (Or.inr (Or.inl ⟨{ s with ptr := tgt }, by simp [execKnown, hop, ht, hgb], rfl⟩))
        · exact Or.inr (Or.inr (Or.inl ⟨{ s with ptr := s.ptr + 3 }, by simp [execKnown, hop, ht], rfl⟩))
      · -- Jump-if-false
        by_cases ht : truthy (getParam s.memory s.relative_base (modeAt wn 0)
            (s.memory.read (s.ptr + 1))) = true
        · exact Or.inr (Or.inr (Or.inl ⟨{ s with ptr := s.ptr + 3 }, by simp [execKnown, hop, ht], rfl⟩))
        · rcases hgb : getParam s.memory s.relative_base (modeAt wn 1) (s.memory.read (s.ptr + 2))
              with _ | tgt
          · exact Or.inr (Or.inl ⟨.badParamMode, s, by simp [execKnown, hop, ht, hgb], rfl⟩)
          · exact Or.inr (Or.inr (Or.inl ⟨{ s with ptr := tgt }, by simp [execKnown, hop, ht, hgb], rfl⟩))
      · -- Less-than
        rcases hga : getParam s.memory s.relative_base (modeAt wn 0) (s.memory.read (s.ptr + 1))
            with _ | a
        · exact Or.inr (Or.inl ⟨.badParamMode, s, by simp [execKnown, hop, hga], rfl⟩)
        · rcases hgb : getParam s.memory s.relative_base (modeAt wn 1) (s.memory.read (s.ptr + 2))
              with _ | b
          · exact Or.inr (Or.inl ⟨.badParamMode, s, by simp [execKnown, hop, hga, hgb], rfl⟩)
          · have hd : execKnown s wn = doWrite s (lastMode wn) (s.memory.read (s.ptr + 3))
                (if a < b then 1 else 0) 4 := by
              simp [execKnown, hop, hga, hgb]
            rw [hd]
            rcases doWrite_characterize s (lastMode wn) (s.memory.read (s.ptr + 3))
                (if a < b then 1 else 0) 4 with ⟨s2, hw, ho⟩ | hw
            · exact Or.inr (Or.inr (Or.inl ⟨s2, hw, ho⟩))
            · exact Or.inr (Or.inl ⟨.invalidWriteTarget, s, hw, rfl⟩)
      · -- Equals
        rcases hga : getParam s.memory s.relative_base (modeAt wn 0) (s.memory.read (s.ptr + 1))
            with _ | a
        · exact Or.inr (Or.inl ⟨.badParamMode, s, by simp [execKnown, hop, hga], rfl⟩)
        · rcases hgb : getParam s.memory s.relative_base (modeAt wn 1) (s.memory.read (s.ptr + 2))
              with _ | b
          · exact Or.inr (Or.inl ⟨.badParamMode, s, by simp [execKnown, hop, hga, hgb], rfl⟩)
          · have hd : execKnown s wn = doWrite s (lastMode wn) (s.memory.read (s.ptr + 3))
                (if a = b then 1 else 0) 4 := by
              simp [execKnown, hop, hga, hgb]
            rw [hd]
            rcases doWrite_characterize s (lastMode wn) (s.memory.read (s.ptr + 3))
                (if a = b then 1 else 0) 4 with ⟨s2, hw, ho⟩ | hw
            · exact Or.inr (Or.inr (Or.inl ⟨s2, hw, ho⟩))
            · exact Or.inr (Or.inl ⟨.invalidWriteTarget, s, hw, rfl⟩)
      · -- Adjust relative base
        rcases hga : getParam s.memory s.relative_base (modeAt wn 0) (s.memory.read (s.ptr + 1))
            with _ | v
        · exact Or.inr (Or.inl ⟨.badParamMode, s, by simp [execKnown, hop, hga], rfl⟩)
        · exact Or.inr (Or.inr (Or.inl ⟨{ s with relative_base := s.relative_base + v, ptr := s.ptr + 2 }, by simp [execKnown, hop, hga], rfl⟩))
      · -- Halt
        exact Or.inl (by simp [execKnown, hop])
  · exact Or.inr (Or.inl ⟨.unknownOpcode, s, by simp [step, hk], rfl⟩)

lemma step_halted_eq (s s2 : Machine) (h : step s = .halted s2) : s2 = s := by
  rcases step_characterize s with hs | ⟨e, s3, hs, ho⟩ | ⟨s3, hs, ho⟩ | ⟨s3, v, hs, ho⟩ <;>
    rw [hs] at h
  · injection h with h1
    exact h1.symm
  · simp at h
  · simp at h
  · simp at h

lemma step_next_false_output (s s2 : Machine) (h : step s = .next s2 false) :
    s2.output = s.output := by
  rcases step_characterize s with hs | ⟨e, s3, hs, ho⟩ | ⟨s3, hs, ho⟩ | ⟨s3, v, hs, ho⟩ <;>
    rw [hs] at h
  · simp at h
  · simp at h
  · injection h with h1 h2
    rw [← h1]
    exact ho
  · injection h with h1 h2
    simp at h2

lemma step_next_true_output (s s2 : Machine) (h : step s = .next s2 true) :
    ∃ v, s2.output = s.output ++ [v] := by
  rcases step_characterize s with hs | ⟨e, s3, hs, ho⟩ | ⟨s3, hs, ho⟩ | ⟨s3, v, hs, ho⟩ <;>
    rw [hs] at h
  · simp at h
  · simp at h
  · injection h with h1 h2
    simp at h2
  · injection h with h1 h2
    exact ⟨v, by rw [← h1]; exact ho⟩

lemma runLoop_step_err (n : Nat) (pause : Bool) (s : Machine) (e : VMError) (s2 : Machine)
    (h : step s = .err e s2) : runLoop (n + 1) pause s = .err e s2 := by
  simp [runLoop, h]

lemma runLoop_step_next_true_paused (n : Nat) (s s2 : Machine)
    (h : step s = .next s2 true) : runLoop (n + 1) true s = .paused s2 := by
  simp [runLoop, h]

/-! ## C2 helper lemmas: fuel monotonicity and run structure -/

lemma runLoop_mono_halted : ∀ (n n2 : Nat) (pause : Bool) (s sf : Machine),
    n ≤ n2 → runLoop n pause s = .halted sf → runLoop n2 pause s = .halted sf := by
  intro n
  induction n with
  | zero =>
    intro n2 pause s sf h hr
    simp [runLoop] at hr
  | succ k ih =>
    intro n2 pause s sf h hr
    obtain ⟨m, rfl⟩ : ∃ m, n2 = m + 1 := ⟨n2 - 1, by omega⟩
    cases hs : step s with
    | halted s2 =>
      rw [runLoop_step_halted k pause s s2 hs] at hr
      rw [runLoop_step_halted m pause s s2 hs]
      exact hr
    | err e s2 =>
      rw [runLoop_step_err k pause s e s2 hs] at hr
      simp at hr
    | next s2 fl =>
      cases hp : pause && fl
      · have h1 : runLoop (k + 1) pause s = runLoop k pause s2 := by simp [runLoop, hs, hp]
        have h2 : runLoop (m + 1) pause s = runLoop m pause s2 := by simp [runLoop, hs, hp]
        rw [h1] at hr
        rw [h2]
        exact ih m pause s2 sf (by omega) hr
      · have h1 : runLoop (k + 1) pause s = .paused s2 := by simp [runLoop, hs, hp]
        rw [h1] at hr
        simp at hr

lemma runLoop_mono_paused : ∀ (n n2 : Nat) (pause : Bool) (s sf : Machine),
    n ≤ n2 → runLoop n pause s = .paused sf → runLoop n2 pause s = .paused sf := by
  intro n
  induction n with
  | zero =>
    intro n2 pause s sf h hr
    simp [runLoop] at hr
  | succ k ih =>
    intro n2 pause s sf h hr
    obtain ⟨m, rfl⟩ : ∃ m, n2 = m + 1 := ⟨n2 - 1, by omega⟩
    cases hs : step s with
    | halted s2 =>
      rw [runLoop_step_halted k pause s s2 hs] at hr
      simp at hr
    | err e s2 =>
      rw [runLoop_step_err k pause s e s2 hs] at hr
      simp at hr
    | next s2 fl =>
      cases hp : pause && fl
      · have h1 : runLoop (k + 1) pause s = runLoop k pause s2 := by simp [runLoop, hs, hp]
        have h2 : runLoop (m + 1) pause s = runLoop m pause s2 := by simp [runLoop, hs, hp]
        rw [h1] at hr
        rw [h2]
        exact ih m pause s2 sf (by omega) hr
      · have h1 : runLoop (k + 1) pause s = .paused s2 := by simp [runLoop, hs, hp]
        have h2 : runLoop (m + 1) pause s = .paused s2 := by simp [runLoop, hs, hp]
        rw [h1] at hr
        rw [h2]
        exact hr

lemma runLoop_output_prefix : ∀ (n : Nat) (pause : Bool) (s sf : Machine),
    (runLoop n pause s = .halted sf ∨ runLoop n pause s = .paused sf) →
    ∃ t, sf.output = s.output ++ t := by
  intro n
  induction n with
  | zero =>
    intro pause s sf h
    rcases h with h | h <;> simp [runLoop] at h
  | succ k ih =>
    intro pause s sf h
    cases hs : step s with
    | halted s2 =>
      rw [runLoop_step_halted k pause s s2 hs] at h
      rcases h with h | h
      · injection h with h1
        rw [← h1, step_halted_eq s s2 hs]
        exact ⟨[], by simp⟩
      · simp at h
    | err e s2 =>
      rw [runLoop_step_err k pause s e s2 hs] at h
      rcases h with h | h <;> simp at h
    | next s2 fl =>
      cases hp : pause && fl
      · have h1 : runLoop (k + 1) pause s = runLoop k pause s2 := by simp [runLoop, hs, hp]
        rw [h1] at h
        obtain ⟨t, ht⟩ := ih pause s2 sf h
        cases fl with
        | false =>
          rw [step_next_false_output s s2 hs] at ht
          exact ⟨t, ht⟩
        | true =>
          obtain ⟨v, hv⟩ := step_next_true_output s s2 hs
          rw [hv] at ht
          exact ⟨v :: t, by simpa using ht⟩
      · have h1 : runLoop (k + 1) pause s = .paused s2 := by simp [runLoop, hs, hp]
        rw [h1] at h
        rcases h with h | h
        · simp at h
        · injection h with h1
          subst h1
          have hfl : fl = true := by
            cases fl
            · simp at hp
            · rfl
          subst hfl
          obtain ⟨v, hv⟩ := step_next_true_output s s2 hs
          exact ⟨[v], hv⟩

lemma runLoop_halted_step : ∀ (n : Nat) (pause : Bool) (s sf : Machine),
    runLoop n pause s = .halted sf → step sf = .halted sf := by
  intro n
  induction n with
  | zero =>
    intro pause s sf h
    simp [runLoop] at h
  | succ k ih =>
    intro pause s sf h
    cases hs : step s with
    | halted s2 =>
      rw [runLoop_step_halted k pause s s2 hs] at h
      injection h with h1
      subst h1
      have he : s2 = s := step_halted_eq s s2 hs
      rw [he] at hs
      rw [he]
      exact hs
    | err e s2 =>
      rw [runLoop_step_err k pause s e s2 hs] at h
      simp at h
    | next s2 fl =>
      cases hp : pause && fl
      · have h1 : runLoop (k + 1) pause s = runLoop k pause s2 := by simp [runLoop, hs, hp]
        rw [h1] at h
        exact ih pause s2 sf h
      · have h1 : runLoop (k + 1) pause s = .paused s2 := by simp [runLoop, hs, hp]
        rw [h1] at h
        simp at h

/-! ## C2: the pause/resume correspondence -/

lemma pause_run_produces_one : ∀ (n : Nat) (s sf : Machine) (a : Int) (rest : List Int),
    runLoop n false s = .halted sf →
    sf.output = s.output ++ a :: rest →
    ∃ (s1 : Machine) (k : Nat), k < n ∧ runLoop n true s = .paused s1 ∧
      s1.output = s.output ++ [a] ∧ runLoop k false s1 = .halted sf ∧
      sf.output = s1.output ++ rest := by
  intro n
  induction n with
  | zero =>
    intro s sf a rest h hout
    simp [runLoop] at h
  | succ k2 ih =>
    intro s sf a rest h hout
    cases hs : step s with
    | halted s2 =>
      rw [runLoop_step_halted k2 false s s2 hs] at h
      injection h with h1
      subst h1
      rw [step_halted_eq s s2 hs] at hout
      simp at hout
    | err e s2 =>
      rw [runLoop_step_err k2 false s e s2 hs] at h
      simp at h
    | next s2 fl =>
      cases fl with
      | false =>
        have h1 : runLoop (k2 + 1) false s = runLoop k2 false s2 :=
          runLoop_step_next_false k2 false s s2 hs
        rw [h1] at h
        have hout2 : s2.output = s.output := step_next_false_output s s2 hs
        obtain ⟨s1, k, hk, hp, ho1, hr, hsf⟩ :=
          ih s2 sf a rest h (by rw [hout2]; exact hout)
        refine ⟨s1, k, by omega, ?_, by rw [ho1, hout2], hr, hsf⟩
        rw [runLoop_step_next_false k2 true s s2 hs]
        exact hp
      | true =>
        have h1 : runLoop (k2 + 1) false s = runLoop k2 false s2 := by
          simp [runLoop, hs]
        rw [h1] at h
        obtain ⟨v, hv⟩ := step_next_true_output s s2 hs
        obtain ⟨t, ht⟩ := runLoop_output_prefix k2 false s2 sf (Or.inl h)
        rw [hv] at ht
        have hva : v = a ∧ t = rest := by
          rw [hout] at ht
          have : a :: rest = v :: t := by
            have h2 : s.output ++ a :: rest = s.output ++ (v :: t) := by
              rw [ht]
              simp
            exact List.append_cancel_left h2
          injection this with hx hy
          exact ⟨hx.symm, hy.symm⟩
        obtain ⟨hva1, hva2⟩ := hva
        refine ⟨s2, k2, by omega, runLoop_step_next_true_paused k2 s s2 hs, ?_, h, ?_⟩
        · rw [hv, hva1]
        · rw [hout, hv, hva1]
          simp

lemma pause_run_no_output : ∀ (n : Nat) (s sf : Machine),
    runLoop n false s = .halted sf → sf.output = s.output →
    runLoop n true s = .halted sf := by
  intro n
  induction n with
  | zero =>
    intro s sf h hout
    simp [runLoop] at h
  | succ k ih =>
    intro s sf h hout
    cases hs : step s with
    | halted s2 =>
      rw [runLoop_step_halted k false s s2 hs] at h
      rw [runLoop_step_halted k true s s2 hs]
      exact h
    | err e s2 =>
      rw [runLoop_step_err k false s e s2 hs] at h
      simp at h
    | next s2 fl =>
      cases fl with
      | false =>
        rw [runLoop_step_next_false k false s s2 hs] at h
        rw [runLoop_step_next_false k true s s2 hs]
        exact ih s2 sf h (by rw [step_next_false_output s s2 hs]; exact hout)
      | true =>
        have h1 : runLoop (k + 1) false s = runLoop k false s2 := by
          simp [runLoop, hs]
        rw [h1] at h
        obtain ⟨v, hv⟩ := step_next_true_output s s2 hs
        obtain ⟨t, ht⟩ := runLoop_output_prefix k false s2 sf (Or.inl h)
        rw [hv, hout] at ht
        simp at ht

lemma run00 (pause : Bool) (fuel : Nat) (s : Machine) :
    Computer.run 0 0 pause fuel s = runLoop fuel pause s := rfl

/-- C2: on any machine whose plain run (within some fuel) halts having
produced exactly three more outputs a, b, c, running with
`pause_at_output = true` pauses exactly once per output: three successive
`run` calls return `Paused` having produced exactly a, then b, then c, in
production order, each continuing from where the previous one stopped; a
fourth call reaches `Halted` (producing nothing further, with the same
final state as the plain run), and one further call on the halted state
halts again instead of raising an error. -/
theorem c2_pause_on_output_three :
    ∀ (n : Nat) (s sf : Machine) (a b c : Int),
      Computer.run 0 0 false n s = .halted sf →
      sf.output = s.output ++ [a, b, c] →
      ∃ s1 s2 s3 : Machine,
        Computer.run 0 0 true n s = .paused s1 ∧ s1.output = s.output ++ [a] ∧
        Computer.run 0 0 true n s1 = .paused s2 ∧ s2.output = s.output ++ [a, b] ∧
        Computer.run 0 0 true n s2 = .paused s3 ∧ s3.output = s.output ++ [a, b, c] ∧
        Computer.run 0 0 true n s3 = .halted sf ∧
        Computer.run 0 0 true n sf = .halted sf := by
  intro n s sf a b c h hout
  rw [run00] at h
  simp only [run00]
  obtain ⟨s1, k1, hk1, hp1, ho1, hr1, hsf1⟩ := pause_run_produces_one n s sf a [b, c] h hout
  obtain ⟨s2, k2, hk2, hp2, ho2, hr2, hsf2⟩ := pause_run_produces_one k1 s1 sf b [c] hr1 hsf1
  obtain ⟨s3, k3, hk3, hp3, ho3, hr3, hsf3⟩ := pause_run_produces_one k2 s2 sf c [] hr2 hsf2
  have hfin : runLoop k3 true s3 = .halted sf :=
    pause_run_no_output k3 s3 sf hr3 (by simpa using hsf3)
  have hn1 : runLoop n true s1 = .paused s2 := runLoop_mono_paused k1 n true s1 s2 (by omega) hp2
  have hn2 : runLoop n true s2 = .paused s3 := runLoop_mono_paused k2 n true s2 s3 (by omega) hp3
  have hn3 : runLoop n true s3 = .halted sf := runLoop_mono_halted k3 n true s3 sf (by omega) hfin
  have hstep : step sf = .halted sf := runLoop_halted_step n false s sf h
  obtain ⟨m, rfl⟩ : ∃ m, n = m + 1 := by
    cases n with
    | zero => simp [runLoop] at h
    | succ m => exact ⟨m, rfl⟩
  refine ⟨s1, s2, s3, hp1, ho1, hn1, ?_, hn2, ?_, hn3,
    runLoop_step_halted m true sf sf hstep⟩
  · rw [ho2, ho1]
    simp
  · rw [ho3, ho2, ho1]
    simp

def machineC2 : Machine := Machine.init.load_code [104, 7, 104, 8, 104, 9, 99]

def machineC2sf : Machine := ⟨machineC2.memory, 6, 0, [], [7, 8, 9]⟩

theorem c2_witness :
    ∃ s1 s2 s3 : Machine,
      Computer.run 0 0 true 4 machineC2 = .paused s1 ∧
      s1.output = machineC2.output ++ [7] ∧
      Computer.run 0 0 true 4 s1 = .paused s2 ∧
      s2.output = machineC2.output ++ [7, 8] ∧
      Computer.run 0 0 true 4 s2 = .paused s3 ∧
      s3.output = machineC2.output ++ [7, 8, 9] ∧
      Computer.run 0 0 true 4 s3 = .halted machineC2sf ∧
      Computer.run 0 0 true 4 machineC2sf = .halted machineC2sf :=
  c2_pause_on_output_three 4 machineC2 machineC2sf 7 8 9 rfl rfl
